import Mathlib

/-!
Verification of the krnl GPU compute runtime (host side) against its design
specification.  The Rust sources are shallowly embedded: machine integers are
modelled as `Nat` (Rust's checked arithmetic panics on overflow, so every
non-panicking execution agrees with the `Nat` semantics), fallible operations
return `Option`/`Except`, and the stateful worker/allocator code is modelled
by explicit state passing.
-/

namespace Krnl

/-! ## Chunk slab allocator (src/device/engine.rs)

`Block`, `Chunk::alloc` and `ChunkAlloc::drop` from the chunk slab allocator.
A chunk's state is its `blocks: Vec<Block>` list; `Chunk::alloc` first-fit
inserts a block rounded up to `CHUNK_ALIGN`, `ChunkAlloc::drop` removes the
block with the matching start. -/

structure Block where
  start : Nat
  stop : Nat
deriving Repr, DecidableEq

def Block.blen (b : Block) : Nat := b.stop - b.start

def CHUNK_ALIGN : Nat := 256

def CHUNK_SIZE_MULTIPLE : Nat := 256000000

/-- `Chunk::new` rounds the requested size up to a multiple of
`CHUNK_SIZE_MULTIPLE`: `CHUNK_SIZE_MULTIPLE * (1 + (len - 1) / CHUNK_SIZE_MULTIPLE)`. -/
def chunkNewLen (len : Nat) : Nat :=
  CHUNK_SIZE_MULTIPLE * (1 + (len - 1) / CHUNK_SIZE_MULTIPLE)

/-- The rounded block length `CHUNK_ALIGN * (1 + (len - 1) / CHUNK_ALIGN)`
computed at the top of `Chunk::alloc`. -/
def blockLenOf (len : Nat) : Nat := CHUNK_ALIGN * (1 + (len - 1) / CHUNK_ALIGN)

/-- The first-fit scan loop of `Chunk::alloc`: walk the blocks in order keeping
a cursor `start` (initially 0, otherwise the previous block's end); insert
before the first block whose start leaves a gap of at least `len`; after the
loop, append if `start + len <= chunk.len`. -/
def allocLoop (chunkLen blockLen len : Nat) : Nat → List Block → Option (Block × List Block)
  | start, [] =>
    if start + len ≤ chunkLen then
      some (⟨start, start + blockLen⟩, [⟨start, start + blockLen⟩])
    else
      none
  | start, b :: bs =>
    if start + len ≤ b.start then
      some (⟨start, start + blockLen⟩, ⟨start, start + blockLen⟩ :: b :: bs)
    else
      (allocLoop chunkLen blockLen len b.stop bs).map fun r => (r.1, b :: r.2)

/-- `Chunk::alloc(len)`: `None` if `len > chunk.len`, otherwise the first-fit
insertion with the rounded block length.  Returns the new block together with
the updated blocks list. -/
def chunkAlloc (chunkLen : Nat) (blocks : List Block) (len : Nat) : Option (Block × List Block) :=
  if len > chunkLen then none
  else allocLoop chunkLen (blockLenOf len) len 0 blocks

/-- `ChunkAlloc::drop`: remove the first block whose start equals the dropped
allocation's start (`position` + `remove`). -/
def dropBlock : List Block → Nat → List Block
  | [], _ => []
  | b :: bs, s => if b.start = s then bs else b :: dropBlock bs s

inductive ChunkOp
  | alloc (len : Nat)
  | drop (start : Nat)
deriving Repr, DecidableEq

/-- A failed `Chunk::alloc` leaves the blocks list unchanged. -/
def stepChunk (chunkLen : Nat) (blocks : List Block) : ChunkOp → List Block
  | .alloc len =>
    match chunkAlloc chunkLen blocks len with
    | some (_, bs) => bs
    | none => blocks
  | .drop s => dropBlock blocks s

def runChunk (chunkLen : Nat) (blocks : List Block) (ops : List ChunkOp) : List Block :=
  ops.foldl (stepChunk chunkLen) blocks

/-- Constraint on an operation sequence: every `Chunk::alloc` call has length
at least 1 (`len - 1` is computed in `u32`). -/
def opLenPositive : ChunkOp → Prop
  | .alloc len => 1 ≤ len
  | .drop _ => True

instance : DecidablePred opLenPositive := fun op => by
  cases op <;> simp only [opLenPositive] <;> infer_instance

/-- The chained ordering invariant: starting from lower bound `lo`, each block
is nonempty, starts at or after the bound, and bounds the rest by its end. -/
def Chain : Nat → List Block → Prop
  | _, [] => True
  | lo, b :: bs => lo ≤ b.start ∧ b.start < b.stop ∧ Chain b.stop bs

instance instDecidableChain : ∀ (lo : Nat) (bs : List Block), Decidable (Chain lo bs)
  | _, [] => isTrue trivial
  | lo, b :: bs =>
    have : Decidable (Chain b.stop bs) := instDecidableChain b.stop bs
    inferInstanceAs (Decidable (lo ≤ b.start ∧ b.start < b.stop ∧ Chain b.stop bs))

/-- Full chunk invariant: chained from 0, all ends within the chunk, starts
and lengths multiples of `CHUNK_ALIGN`. -/
def chunkInv (chunkLen : Nat) (blocks : List Block) : Prop :=
  Chain 0 blocks ∧ ∀ b ∈ blocks, b.stop ≤ chunkLen ∧ 256 ∣ b.start ∧ 256 ∣ b.blen

/-! ## Engine::wait (crates/krnl/src/device/vulkan_engine.rs)

`wait()` snapshots each worker's `pending` counter, then spins: if `exited`
is observed it returns `DeviceLost { index, handle }`; if some worker's
`completed` is still below its snapshot it sleeps and retries; otherwise it
returns `Ok`.  The spin loop is modelled as recursion over the finite list of
observations the loop makes of the shared atomics. -/

structure DeviceLost where
  index : Nat
  handle : Nat
deriving Repr, DecidableEq

structure WaitObs where
  exited : Bool
  completed : List Nat
deriving Repr, DecidableEq

/-- `worker_states.iter().zip(pending).any(|(state, pending)| state.completed < pending)` -/
def anyLess (completed pending : List Nat) : Bool :=
  (completed.zip pending).any fun cp => cp.1 < cp.2

inductive WaitResult
  | ok
  | deviceLost (d : DeviceLost)
deriving Repr, DecidableEq

/-- `Engine::wait` with snapshot `pending`, consuming one observation of
`(exited, completed counters)` per loop iteration; `none` means the
observation list ran out while the loop was still spinning. -/
def engineWait (index handle : Nat) (pending : List Nat) : List WaitObs → Option WaitResult
  | [] => none
  | o :: rest =>
    if o.exited then some (.deviceLost ⟨index, handle⟩)
    else if anyLess o.completed pending then engineWait index handle pending rest
    else some .ok

/-! ## Queue family selection in Engine::new (vulkan_engine.rs lines 142-230) -/

structure QueueFlags where
  graphics : Bool
  compute : Bool
  transfer : Bool
deriving Repr, DecidableEq

/-- The search for a dedicated transfer family:
`position(|x| flags.transfer && !flags.compute && !flags.graphics)`. -/
def transferFamilyCandidate (fams : List QueueFlags) : Option Nat :=
  fams.findIdx? fun f => f.transfer && !f.compute && !f.graphics

/-- `Option::take`: returns the held value and leaves `None` behind. -/
def optionTake (o : Option Nat) : Option Nat × Option Nat := (o, none)

/-- `Engine::new`'s transfer family after `transfer_family.take()`
(vulkan_engine.rs line 159): the candidate is unconditionally discarded. -/
def engineNewTransferFamily (fams : List QueueFlags) : Option Nat :=
  (optionTake (transferFamilyCandidate fams)).2

/-- The transfer op channel aliases the compute op channel exactly when no
transfer queue was created, i.e. when the (post-`take`) transfer family is
`None`. -/
def transferAliasesCompute (fams : List QueueFlags) : Bool :=
  (engineNewTransferFamily fams).isNone

/-! ## KernelDesc::specialize operand patching (src/kernel.rs lines 639-670)

Spec-constant binding: for an `OpSpecConstant` with spec id `n`, the chosen
value is `spec_consts[n]` when `n < spec_consts.len()`, or `U32(threads)`
when `n == spec_consts.len()`.  The value's bytes are then copied into the
instruction's literal operands; 32-bit literal words are modelled as their
four-byte lists.  Rust slicing and `copy_from_slice` panic on out-of-range
indices or length mismatch; a panic is modelled as `none`. -/

/-- `copy_from_slice` panics unless lengths match. -/
def rustCopyFromSlice (dst src : List Nat) : Option (List Nat) :=
  if dst.length = src.length then some src else none

/-- `l[..stop]`: panics when `stop > l.len()`. -/
def rustSliceTo (l : List Nat) (stop : Nat) : Option (List Nat) :=
  if stop ≤ l.length then some (l.take stop) else none

/-- `l[start..]`: panics when `start > l.len()`. -/
def rustSliceFrom (l : List Nat) (start : Nat) : Option (List Nat) :=
  if start ≤ l.length then some (l.drop start) else none

/-- The integer-literal arms of the operand patch in `KernelDesc::specialize`:
`[LiteralInt32(a)]` does `bytes_of_mut(a)[..bytes.len()].copy_from_slice(bytes)`;
`[LiteralInt32(a), LiteralInt32(b)]` does
`bytes_of_mut(a).copy_from_slice(&bytes[..8])` and
`bytes_of_mut(b).copy_from_slice(&bytes[9..])`.  Each operand is its list of
four bytes. -/
def patchSpecOperands (bytes : List Nat) : List (List Nat) → Option (List (List Nat))
  | [a] => do
    let dst ← rustSliceTo a bytes.length
    let patched ← rustCopyFromSlice dst bytes
    some [patched ++ a.drop bytes.length]
  | [a, b] => do
    let src1 ← rustSliceTo bytes 8
    let a2 ← rustCopyFromSlice a src1
    let src2 ← rustSliceFrom bytes 9
    let b2 ← rustCopyFromSlice b src2
    some [a2, b2]
  | _ => none

/-- Value selection for a decorated spec id
(`spec_consts.get(spec_id)`, else `threads` at `spec_id == spec_consts.len()`,
else `unreachable!`). -/
def specIdValue (spec_consts : List (List Nat)) (threadsBytes : List Nat) (specId : Nat) :
    Option (List Nat) :=
  if h : specId < spec_consts.length then some (spec_consts.get ⟨specId, h⟩)
  else if specId = spec_consts.length then some threadsBytes
  else none

/-- Little-endian bytes of a `u32` (`ScalarElem::U32(threads).as_bytes()`). -/
def u32LeBytes (x : Nat) : List Nat :=
  [x % 256, x / 256 % 256, x / 65536 % 256, x / 16777216 % 256]

/-! ## freeze_spec_constants (src/kernel.rs lines 892-924 and 1122-1131)

Only the opcode-rewriting skeleton matters for the claims: which
`OpSpecConstant*` instructions get replaced by their non-spec equivalents.
A `SpecConstantOp` instruction carries whether its operator is in the
supported set and, when it is, whether the folded result is a boolean (and
its value) or a scalar. -/

inductive SpirvInst
  | constantTrue
  | constantFalse
  | specConstantTrue
  | specConstantFalse
  | constant
  | specConstant
  | constantComposite
  | specConstantComposite
  | specConstantOp (supported : Bool) (outBool : Option Bool)
  | otherInst
deriving Repr, DecidableEq

/-- Rewrite of one types/globals instruction by `freeze_spec_constants`.  In
the `ConstantTrue | SpecConstantTrue | ConstantFalse | SpecConstantFalse` arm
the conversion is guarded by `if let Op::SpecConstant = inst.class.opcode`
(kernel.rs line 895), faithfully reproduced here. -/
def freezeInst (i : SpirvInst) : Except String SpirvInst :=
  match i with
  | .constantTrue | .specConstantTrue | .constantFalse | .specConstantFalse =>
    if i = .specConstant then
      .ok (if i = .constantTrue ∨ i = .specConstantTrue then .constantTrue else .constantFalse)
    else
      .ok i
  | .constant => .ok i
  | .specConstant => .ok .constant
  | .specConstantComposite => .ok .constantComposite
  | .specConstantOp supported outBool =>
    if supported then
      .ok (match outBool with
        | some true => .constantTrue
        | some false => .constantFalse
        | none => .constant)
    else
      .error "SpecConstantOp is unimplemented!"
  | _ => .ok i

def freezeTypesGlobals (l : List SpirvInst) : Except String (List SpirvInst) :=
  l.mapM freezeInst

inductive Annot
  | decorateSpecId (id n : Nat)
  | otherAnnot
deriving Repr, DecidableEq

/-- `module.annotations.retain(..)` dropping `OpDecorate _ SpecId _`. -/
def freezeAnnotations (l : List Annot) : List Annot :=
  l.filter fun a =>
    match a with
    | .decorateSpecId _ _ => false
    | .otherAnnot => true

def isSpecInst : SpirvInst → Bool
  | .specConstant | .specConstantTrue | .specConstantFalse
  | .specConstantComposite | .specConstantOp _ _ => true
  | _ => false

/-! ## BufferAllocator::alloc_host / alloc_device (src/device/engine.rs lines 756-787)

Each chunk slot is observed either as a live chunk (the `Weak` upgrade
succeeds) that does or does not have room, or as a dead slot where a fresh
`Chunk::new` either succeeds or fails with the memory kind's OOM error
(`ChunkMemory::oom_error`: host -> `OutOfHostMemory`,
device -> `OutOfDeviceMemory`).  A fresh-chunk failure propagates via `?`;
the loop fall-through returns `OutOfHostMemory` in BOTH functions
(engine.rs lines 770 and 786). -/

inductive OomError
  | outOfHostMemory
  | outOfDeviceMemory
deriving Repr, DecidableEq

inductive ChunkSlot
  | alive (hasRoom : Bool)
  | dead (freshFails : Bool)
deriving Repr, DecidableEq

def allocHost : List ChunkSlot → Except OomError Unit
  | [] => .error .outOfHostMemory
  | .alive true :: _ => .ok ()
  | .alive false :: rest => allocHost rest
  | .dead fails :: _ => if fails then .error .outOfHostMemory else .ok ()

def allocDevice : List ChunkSlot → Except OomError Unit
  | [] => .error .outOfHostMemory
  | .alive true :: _ => .ok ()
  | .alive false :: rest => allocDevice rest
  | .dead fails :: _ => if fails then .error .outOfDeviceMemory else .ok ()

/-- The claim's precondition: a slot yields neither an upgradeable chunk with
room nor a successful fresh allocation. -/
def slotExhausted : ChunkSlot → Bool
  | .alive hasRoom => !hasRoom
  | .dead freshFails => freshFails

/-! ## Group count determination in Kernel::dispatch (src/kernel.rs lines 1596-1626)

Each slice argument is `(len_in_elements, is_item)`.  `items` is folded over
the slices exactly as in the code (`items.min(slice.len())` for item slices).
The outcome is `ok groups`, an error (`bail!`), or a panic (`unreachable!`). -/

inductive GroupsOutcome
  | ok (groups : Nat)
  | err
  | diverges
deriving Repr, DecidableEq

def itemsOf (slices : List (Nat × Bool)) : Option Nat :=
  slices.foldl
    (fun acc s =>
      if s.2 then
        some (match acc with
          | some i => min i s.1
          | none => s.1)
      else acc)
    none

def computeGroups (groupsOpt : Option Nat) (slices : List (Nat × Bool))
    (threads maxGroups : Nat) : GroupsOutcome :=
  match groupsOpt with
  | some groups => if groups > maxGroups then .err else .ok groups
  | none =>
    match itemsOf slices with
    | some items =>
      .ok (min (items / threads + (if items % threads ≠ 0 then 1 else 0)) maxGroups)
    | none => .diverges

/-! ## Future-cell update in Kernel::dispatch (vulkan_engine.rs lines 1148-1192)

Each bound buffer contributes `(cell id, mutable)` where the cell id is the
address of its `Arc<RwLock<WorkerFuture>>` (one distinct cell per
`DeviceBuffer`).  The list is stably sorted by cell address, guards are
acquired, and after the worker returns the new future, every upgradable
(mutable) guard is upgraded and overwritten with it; read guards write
nothing. -/

def sortBindings (l : List (Nat × Bool)) : List (Nat × Bool) :=
  l.mergeSort fun a b => a.1 ≤ b.1

/-- The final `for guard in future_guards` loop: walk the guards, writing the
received future through every mutable (upgradable) guard. -/
def applyFutureGuards (f : Nat) : List (Nat × Bool) → (Nat → Nat) → (Nat → Nat)
  | [], cells => cells
  | g :: rest, cells =>
    applyFutureGuards f rest
      (if g.2 then fun j => if j = g.1 then f else cells j else cells)

/-- Cell contents after a successful `Kernel::dispatch` that received future
`f`, given the pre-dispatch contents `cells`. -/
def dispatchUpdateCells (bindings : List (Nat × Bool)) (cells : Nat → Nat) (f : Nat) :
    Nat → Nat :=
  applyFutureGuards f (sortBindings bindings) cells

/-! ## DeviceInfo features (vulkan_engine.rs lines 123-141 and 236-243)
and the feature-containment check in KernelBuilder::build (kernel.rs 1475-1488). -/

/-- Modelled from the spec: the `Features` set
`{shader_int8, shader_int16, shader_int64, shader_float16, shader_float64}`
(krnl's `device::Features` type is not part of the provided sources). -/
structure Features where
  shader_int8 : Bool
  shader_int16 : Bool
  shader_int64 : Bool
  shader_float16 : Bool
  shader_float64 : Bool
deriving Repr, DecidableEq

/-- Modelled from the spec: the empty feature set. -/
def Features.empty : Features := ⟨false, false, false, false, false⟩

/-- Modelled from the spec: pointwise intersection, as used to negotiate
`device_features = supported ∩ optimal`. -/
def Features.intersection (a b : Features) : Features :=
  ⟨a.shader_int8 && b.shader_int8, a.shader_int16 && b.shader_int16,
    a.shader_int64 && b.shader_int64, a.shader_float16 && b.shader_float16,
    a.shader_float64 && b.shader_float64⟩

/-- Modelled from the spec: feature-set containment, the check
`device_features.contains(&features)` used by `KernelBuilder::build`. -/
def Features.containsF (a b : Features) : Bool :=
  (!b.shader_int8 || a.shader_int8) && (!b.shader_int16 || a.shader_int16) &&
    (!b.shader_int64 || a.shader_int64) && (!b.shader_float16 || a.shader_float16) &&
    (!b.shader_float64 || a.shader_float64)

/-- The features stored into `DeviceInfo` by `Engine::new`: the negotiated
`device_features` are computed (and enabled on the device) but the info is
built with `features: Features::empty()` (vulkan_engine.rs line 242). -/
def engineNewInfoFeatures (supported optimal : Features) : Features :=
  let device_features := supported.intersection optimal
  let _features : Features :=
    ⟨device_features.shader_int8, device_features.shader_int16,
      device_features.shader_int64, device_features.shader_float16,
      device_features.shader_float64⟩
  Features.empty

/-- The guard `!device_features.contains(&features)` in
`KernelBuilder::build`: `true` means the build fails with the
feature-unsupported error. -/
def buildFeatureCheckFails (infoFeatures required : Features) : Bool :=
  !(infoFeatures.containsF required)

/-! ## Engine::alloc / Engine::upload boundary behaviour (src/device/engine.rs lines 284-319) -/

def U32_MAX : Nat := 4294967295

deriving instance DecidableEq for Except

/-- Result of `Engine::alloc` / `Engine::upload`: the returned value
(`Err` / `Ok(None)` / `Ok(Some(_))`) together with how many `Op`s were sent
to the op channel. -/
structure AllocResult where
  result : Except Unit (Option Unit)
  opsEnqueued : Nat
deriving Repr, DecidableEq

/-- `Engine::alloc(len)`: `Ok(None)` for `len == 0`, error above `u32::MAX`,
otherwise `alloc_device` (its outcome abstracted as `deviceOk`).  No `Op` is
ever enqueued. -/
def engineAlloc (len : Nat) (deviceOk : Bool) : AllocResult :=
  if len = 0 then ⟨.ok none, 0⟩
  else if len > U32_MAX then ⟨.error (), 0⟩
  else if deviceOk then ⟨.ok (some ()), 0⟩ else ⟨.error (), 0⟩

/-- `Engine::upload(bytes)`: `Ok(None)` for empty input, error above
`u32::MAX`, otherwise host alloc + write + device alloc, then exactly one
`Op::Upload` is sent. -/
def engineUpload (len : Nat) (hostOk writeOk deviceOk : Bool) : AllocResult :=
  if len = 0 then ⟨.ok none, 0⟩
  else if len > U32_MAX then ⟨.error (), 0⟩
  else if hostOk then
    if writeOk then
      if deviceOk then ⟨.ok (some ()), 1⟩ else ⟨.error (), 0⟩
    else ⟨.error (), 0⟩
  else ⟨.error (), 0⟩

/-! ## Theorems -/

theorem blockLenOf_pos (len : Nat) : 0 < blockLenOf len := by
  unfold blockLenOf CHUNK_ALIGN
  positivity

theorem dvd_blockLenOf (len : Nat) : 256 ∣ blockLenOf len :=
  ⟨1 + (len - 1) / 256, rfl⟩

theorem dvd_chunkNewLen (len : Nat) : 256 ∣ chunkNewLen len :=
  ⟨1000000 * (1 + (len - 1) / 256000000), by
    unfold chunkNewLen CHUNK_SIZE_MULTIPLE
    ring⟩

/-- When a gap of `len` bytes fits between two 256-aligned offsets, the
256-rounded block length fits as well. -/
theorem roundUp_le_of_dvd {start target len : Nat} (hs : 256 ∣ start) (ht : 256 ∣ target)
    (hle : start + len ≤ target) (hlen : 1 ≤ len) : start + blockLenOf len ≤ target := by
  obtain ⟨m, hm⟩ : 256 ∣ (target - start) := Nat.dvd_sub' ht hs
  have hq : (len - 1) / 256 < m := by
    rw [Nat.div_lt_iff_lt_mul (by norm_num)]
    omega
  have hb : blockLenOf len = 256 + 256 * ((len - 1) / 256) := by
    unfold blockLenOf CHUNK_ALIGN
    ring
  omega

theorem chain_mono {lo lo2 : Nat} (h : lo ≤ lo2) :
    ∀ {bs : List Block}, Chain lo2 bs → Chain lo bs
  | [], _ => trivial
  | _ :: _, hc => ⟨le_trans h hc.1, hc.2.1, hc.2.2⟩

theorem chain_le_start {lo : Nat} :
    ∀ {bs : List Block}, Chain lo bs → ∀ b ∈ bs, lo ≤ b.start ∧ b.start < b.stop
  | [], _, b, hb => absurd hb (List.not_mem_nil b)
  | x :: bs, hc, b, hb => by
    rcases List.mem_cons.mp hb with rfl | hb
    · exact ⟨hc.1, hc.2.1⟩
    · have := chain_le_start hc.2.2 b hb
      have hx : lo ≤ x.stop := le_trans hc.1 (Nat.le_of_lt hc.2.1)
      exact ⟨le_trans hx this.1, this.2⟩

theorem chain_pairwise {lo : Nat} :
    ∀ {bs : List Block}, Chain lo bs →
      List.Pairwise (fun a b => a.stop ≤ b.start) bs
  | [], _ => List.Pairwise.nil
  | x :: bs, hc => by
    refine List.Pairwise.cons ?_ (chain_pairwise hc.2.2)
    intro b hb
    exact (chain_le_start hc.2.2 b hb).1

/-- The first-fit loop of `Chunk::alloc` preserves the chunk invariant: the
resulting blocks list is chained from the cursor, stays within the chunk, and
keeps all starts and lengths 256-aligned. -/
theorem allocLoop_inv {chunkLen len : Nat} (hlen : 1 ≤ len) (hck : 256 ∣ chunkLen) :
    ∀ (bs : List Block) (start : Nat),
      Chain start bs →
      (∀ b ∈ bs, b.stop ≤ chunkLen ∧ 256 ∣ b.start ∧ 256 ∣ b.blen) →
      256 ∣ start →
      ∀ res, allocLoop chunkLen (blockLenOf len) len start bs = some res →
        Chain start res.2 ∧
          ∀ b ∈ res.2, b.stop ≤ chunkLen ∧ 256 ∣ b.start ∧ 256 ∣ b.blen
  | [], start, _, _, hs, res, hres => by
    rw [allocLoop] at hres
    split at hres
    case isTrue hcond =>
      obtain rfl : (⟨(⟨start, start + blockLenOf len⟩ : Block),
          [⟨start, start + blockLenOf len⟩]⟩ : Block × List Block) = res :=
        Option.some.inj hres
      refine ⟨⟨Nat.le_refl _, Nat.lt_add_of_pos_right (blockLenOf_pos len), trivial⟩, ?_⟩
      intro b hb
      rcases List.mem_cons.mp hb with rfl | hb
      · refine ⟨roundUp_le_of_dvd hs hck hcond hlen, hs, ?_⟩
        simp only [Block.blen, Nat.add_sub_cancel_left]
        exact dvd_blockLenOf len
      · exact absurd hb (List.not_mem_nil b)
    case isFalse => exact absurd hres (by simp)
  | x :: bs, start, hchain, hmem, hs, res, hres => by
    rw [allocLoop] at hres
    split at hres
    case isTrue hcond =>
      obtain rfl : (⟨(⟨start, start + blockLenOf len⟩ : Block),
          ⟨start, start + blockLenOf len⟩ :: x :: bs⟩ : Block × List Block) = res :=
        Option.some.inj hres
      have hxstart : 256 ∣ x.start := (hmem x (List.mem_cons_self _ _)).2.1
      have hfit : start + blockLenOf len ≤ x.start :=
        roundUp_le_of_dvd hs hxstart hcond hlen
      refine ⟨⟨Nat.le_refl _, Nat.lt_add_of_pos_right (blockLenOf_pos len),
        hfit, hchain.2.1, hchain.2.2⟩, ?_⟩
      intro b hb
      rcases List.mem_cons.mp hb with rfl | hb
      · have hxstop : x.stop ≤ chunkLen := (hmem x (List.mem_cons_self _ _)).1
        have hxlt : x.start < x.stop := hchain.2.1
        refine ⟨show start + blockLenOf len ≤ chunkLen by omega, hs, ?_⟩
        simp only [Block.blen, Nat.add_sub_cancel_left]
        exact dvd_blockLenOf len
      · exact hmem b hb
    case isFalse hcond =>
      rcases hrec : allocLoop chunkLen (blockLenOf len) len x.stop bs with _ | r0
      · rw [hrec] at hres
        exact absurd hres (by simp)
      · rw [hrec] at hres
        obtain rfl : (⟨r0.1, x :: r0.2⟩ : Block × List Block) = res :=
          Option.some.inj hres
        have hxdvd : 256 ∣ x.stop := by
          have hx := hmem x (List.mem_cons_self _ _)
          have hxe : x.stop = x.start + x.blen := by
            have := hchain.2.1
            simp only [Block.blen]
            omega
          rw [hxe]
          exact Nat.dvd_add hx.2.1 hx.2.2
        have ih := allocLoop_inv hlen hck bs x.stop hchain.2.2
          (fun b hb => hmem b (List.mem_cons_of_mem _ hb)) hxdvd r0 hrec
        refine ⟨⟨hchain.1, hchain.2.1, ih.1⟩, ?_⟩
        intro b hb
        rcases List.mem_cons.mp hb with rfl | hb
        · exact hmem b (List.mem_cons_self _ _)
        · exact ih.2 b hb

/-- `Chunk::alloc` preserves the chunk invariant. -/
theorem chunkAlloc_inv {chunkLen len : Nat} {bs : List Block} {res : Block × List Block}
    (hlen : 1 ≤ len) (hck : 256 ∣ chunkLen) (hinv : chunkInv chunkLen bs)
    (h : chunkAlloc chunkLen bs len = some res) : chunkInv chunkLen res.2 := by
  rw [chunkAlloc] at h
  split at h
  · exact absurd h (by simp)
  · have := allocLoop_inv hlen hck bs 0 hinv.1 hinv.2 (Nat.dvd_zero 256) res h
    exact ⟨this.1, this.2⟩

theorem dropBlock_mem :
    ∀ (bs : List Block) (s : Nat), ∀ b ∈ dropBlock bs s, b ∈ bs
  | [], _, b, hb => hb
  | x :: bs, s, b, hb => by
    rw [dropBlock] at hb
    split at hb
    · exact List.mem_cons_of_mem _ hb
    · rcases List.mem_cons.mp hb with rfl | hb
      · exact List.mem_cons_self _ _
      · exact List.mem_cons_of_mem _ (dropBlock_mem bs s b hb)

theorem chain_dropBlock {lo s : Nat} :
    ∀ {bs : List Block}, Chain lo bs → Chain lo (dropBlock bs s)
  | [], _ => trivial
  | x :: bs, hc => by
    rw [dropBlock]
    split
    · exact chain_mono (le_trans hc.1 (Nat.le_of_lt hc.2.1)) hc.2.2
    · exact ⟨hc.1, hc.2.1, chain_dropBlock hc.2.2⟩

/-- One engine-visible operation (`Chunk::alloc` or `ChunkAlloc::drop`)
preserves the chunk invariant. -/
theorem stepChunk_inv {chunkLen : Nat} {bs : List Block} {op : ChunkOp}
    (hck : 256 ∣ chunkLen) (hop : opLenPositive op) (hinv : chunkInv chunkLen bs) :
    chunkInv chunkLen (stepChunk chunkLen bs op) := by
  cases op with
  | alloc len =>
    rw [stepChunk]
    rcases h : chunkAlloc chunkLen bs len with _ | res
    · exact hinv
    · exact chunkAlloc_inv hop hck hinv h
  | drop s =>
    exact ⟨chain_dropBlock hinv.1, fun b hb => hinv.2 b (dropBlock_mem bs s b hb)⟩

theorem runChunk_inv {chunkLen : Nat} (hck : 256 ∣ chunkLen) :
    ∀ (ops : List ChunkOp) (bs : List Block),
      chunkInv chunkLen bs → (∀ op ∈ ops, opLenPositive op) →
      chunkInv chunkLen (runChunk chunkLen bs ops)
  | [], bs, hinv, _ => hinv
  | op :: ops, bs, hinv, hops => by
    rw [runChunk, List.foldl_cons]
    exact runChunk_inv hck ops (stepChunk chunkLen bs op)
      (stepChunk_inv hck (hops op (List.mem_cons_self _ _)) hinv)
      (fun x hx => hops x (List.mem_cons_of_mem _ hx))

/-- C1: for every chunk created by `Chunk::new` and every sequence of
`Chunk::alloc` calls (length at least 1) and `ChunkAlloc` drops, the blocks
list stays strictly increasing in start, pairwise disjoint, with every block
end within the chunk length and every block start and length a multiple of
256. -/
theorem c1_chunk_blocks_invariant (req : Nat) (ops : List ChunkOp)
    (hreq : 1 ≤ req) (hops : ∀ op ∈ ops, opLenPositive op) :
    List.Pairwise (fun a b => a.start < b.start) (runChunk (chunkNewLen req) [] ops) ∧
    List.Pairwise (fun a b => a.stop ≤ b.start ∨ b.stop ≤ a.start)
      (runChunk (chunkNewLen req) [] ops) ∧
    (∀ b ∈ runChunk (chunkNewLen req) [] ops, b.stop ≤ chunkNewLen req) ∧
    (∀ b ∈ runChunk (chunkNewLen req) [] ops, 256 ∣ b.start ∧ 256 ∣ b.blen) := by
  have _hreq := hreq
  have hinv : chunkInv (chunkNewLen req) (runChunk (chunkNewLen req) [] ops) :=
    runChunk_inv (dvd_chunkNewLen req) ops []
      ⟨trivial, fun b hb => absurd hb (List.not_mem_nil b)⟩ hops
  have hpair := chain_pairwise hinv.1
  have hlt := chain_le_start hinv.1
  refine ⟨?_, ?_, fun b hb => (hinv.2 b hb).1, fun b hb => (hinv.2 b hb).2⟩
  · exact List.Pairwise.imp_of_mem
      (fun {a b} ha _ h => lt_of_lt_of_le (hlt a ha).2 h) hpair
  · exact hpair.imp fun h => Or.inl h

/-- Witness for C1: a chunk for a 1-byte request, allocating 300 and 1 bytes,
dropping the first block, then allocating 257 bytes. -/
theorem c1_chunk_blocks_invariant_witness :
    List.Pairwise (fun a b => a.start < b.start)
      (runChunk (chunkNewLen 1) []
        [ChunkOp.alloc 300, ChunkOp.alloc 1, ChunkOp.drop 0, ChunkOp.alloc 257]) ∧
    List.Pairwise (fun a b => a.stop ≤ b.start ∨ b.stop ≤ a.start)
      (runChunk (chunkNewLen 1) []
        [ChunkOp.alloc 300, ChunkOp.alloc 1, ChunkOp.drop 0, ChunkOp.alloc 257]) ∧
    (∀ b ∈ runChunk (chunkNewLen 1) []
        [ChunkOp.alloc 300, ChunkOp.alloc 1, ChunkOp.drop 0, ChunkOp.alloc 257],
      b.stop ≤ chunkNewLen 1) ∧
    (∀ b ∈ runChunk (chunkNewLen 1) []
        [ChunkOp.alloc 300, ChunkOp.alloc 1, ChunkOp.drop 0, ChunkOp.alloc 257],
      256 ∣ b.start ∧ 256 ∣ b.blen) :=
  c1_chunk_blocks_invariant 1
    [ChunkOp.alloc 300, ChunkOp.alloc 1, ChunkOp.drop 0, ChunkOp.alloc 257]
    (by decide) (by decide)

/-- Walking the guard list writes the received future through exactly the
cells that occur with a mutable (upgradable) guard. -/
theorem applyFutureGuards_eq (f : Nat) :
    ∀ (l : List (Nat × Bool)) (cells : Nat → Nat) (j : Nat),
      applyFutureGuards f l cells j = if (j, true) ∈ l then f else cells j
  | [], cells, j => by simp [applyFutureGuards]
  | g :: rest, cells, j => by
    rw [applyFutureGuards, applyFutureGuards_eq f rest]
    rcases g with ⟨g1, g2⟩
    by_cases hrest : (j, true) ∈ rest
    · simp [hrest]
    · cases g2 <;> by_cases hj : j = g1 <;>
        simp [hrest, hj, List.mem_cons, Prod.ext_iff]

/-- C8: after a successful `Kernel::dispatch` that received future `f`, every
buffer bound through a mutable slice descriptor has `f` stored in its future
cell, and every buffer bound through a read-only slice descriptor keeps its
previous future.  The sole hypothesis is that no future cell is bound both
mutably and read-only in the same dispatch (such a call never returns: the
upgradable guard's upgrade waits forever on the still-held read guard);
binding the same cell through several read-only descriptors is allowed. -/
theorem c8_dispatch_future_cells (bindings : List (Nat × Bool)) (cells : Nat → Nat) (f : Nat)
    (hnoalias : ∀ p ∈ bindings, p.2 = true → (p.1, false) ∉ bindings) :
    (∀ i, (i, true) ∈ bindings → dispatchUpdateCells bindings cells f i = f) ∧
    (∀ i, (i, false) ∈ bindings → dispatchUpdateCells bindings cells f i = cells i) := by
  constructor
  · intro i hi
    rw [dispatchUpdateCells, applyFutureGuards_eq]
    simp [sortBindings, List.mem_mergeSort, hi]
  · intro i hi
    rw [dispatchUpdateCells, applyFutureGuards_eq]
    have hnotin : (i, true) ∉ bindings := fun hmem => hnoalias (i, true) hmem rfl hi
    simp [sortBindings, List.mem_mergeSort, hnotin]

/-- Witness for C8: cell 0 bound mutably receives the new future 99, and
cell 1 — bound read-only through two slice descriptors, as in a dispatch
passing the same shared slice twice — keeps its previous value 11. -/
theorem c8_dispatch_future_cells_witness :
    dispatchUpdateCells [(0, true), (1, false), (1, false)] (fun j => j + 10) 99 0 = 99 ∧
    dispatchUpdateCells [(0, true), (1, false), (1, false)] (fun j => j + 10) 99 1 = 11 :=
  ⟨(c8_dispatch_future_cells [(0, true), (1, false), (1, false)] (fun j => j + 10) 99
      (by decide)).1 0 (by decide),
    (c8_dispatch_future_cells [(0, true), (1, false), (1, false)] (fun j => j + 10) 99
      (by decide)).2 1 (by decide)⟩

/-- A `false` result of the `any(completed < pending)` scan means every
worker's completed counter has reached its snapshot. -/
theorem anyLess_false_spec :
    ∀ (c p : List Nat), anyLess c p = false → c.length = p.length →
      ∀ i, i < p.length → p.getD i 0 ≤ c.getD i 0
  | [], [], _, _ => by intro i hi; simp at hi
  | [], q :: p, _, hlen => by simp at hlen
  | x :: c, [], _, _ => by intro i hi; simp at hi
  | x :: c, q :: p, h, hlen => by
    simp only [anyLess, List.zip_cons_cons, List.any_cons, Bool.or_eq_false_iff,
      decide_eq_false_iff_not, not_lt] at h
    intro i hi
    cases i with
    | zero => simpa using h.1
    | succ i =>
      have := anyLess_false_spec c p h.2 (by simpa using hlen) i (by simpa using hi)
      simpa using this

/-- If `wait` reaches an observation with `exited` set after only spinning
iterations, it returns `DeviceLost { index, handle }`. -/
theorem engineWait_exited (index handle : Nat) (pending : List Nat) :
    ∀ (pre : List WaitObs) (o : WaitObs) (post : List WaitObs),
      (∀ o2 ∈ pre, o2.exited = false ∧ anyLess o2.completed pending = true) →
      o.exited = true →
      engineWait index handle pending (pre ++ o :: post) =
        some (.deviceLost ⟨index, handle⟩)
  | [], o, post, _, hex => by
    simp [engineWait, hex]
  | p :: pre, o, post, hpre, hex => by
    have hp := hpre p (List.mem_cons_self _ _)
    rw [List.cons_append, engineWait, if_neg (by simp [hp.1]), if_pos hp.2]
    exact engineWait_exited index handle pending pre o post
      (fun o2 ho2 => hpre o2 (List.mem_cons_of_mem _ ho2)) hex

/-- C2: if `Engine::wait()` returns `Ok` then some observed state had every
worker's completed counter at or above the snapshot pending counter, hence
every Op a worker had submitted before the call (seqno `s ≤ pending`) is
finished (`s ≤ completed`); and if the `exited` flag is the first terminating
observation, `wait()` returns `DeviceLost` carrying the engine's index and
handle. -/
theorem c2_engine_wait (index handle : Nat) (pending : List Nat) (obs : List WaitObs)
    (hlen : ∀ o ∈ obs, o.completed.length = pending.length) :
    (engineWait index handle pending obs = some .ok →
      ∃ o ∈ obs, o.exited = false ∧
        ∀ i, i < pending.length →
          ∀ s, s ≤ pending.getD i 0 → s ≤ o.completed.getD i 0) ∧
    (∀ pre o post, obs = pre ++ o :: post →
      (∀ o2 ∈ pre, o2.exited = false ∧ anyLess o2.completed pending = true) →
      o.exited = true →
      engineWait index handle pending obs = some (.deviceLost ⟨index, handle⟩)) := by
  constructor
  · induction obs with
    | nil => intro h; simp [engineWait] at h
    | cons o rest ih =>
      intro h
      rw [engineWait] at h
      by_cases hex : o.exited
      · rw [if_pos hex] at h
        exact absurd h (by simp)
      · rw [if_neg hex] at h
        by_cases hany : anyLess o.completed pending = true
        · rw [if_pos hany] at h
          obtain ⟨o2, ho2, hprops⟩ := ih (fun x hx => hlen x (List.mem_cons_of_mem _ hx)) h
          exact ⟨o2, List.mem_cons_of_mem _ ho2, hprops⟩
        · refine ⟨o, List.mem_cons_self _ _, by simpa using hex, ?_⟩
          intro i hi s hs
          have := anyLess_false_spec o.completed pending (by simpa using hany)
            (hlen o (List.mem_cons_self _ _)) i hi
          omega
  · intro pre o post hobs hpre hex
    rw [hobs]
    exact engineWait_exited index handle pending pre o post hpre hex

/-- Witness for C2: with snapshot pending `[2]`, the run observing
`completed = [0]` then `[2]` returns `Ok`, so an observation with all
counters caught up exists. -/
theorem c2_engine_wait_witness :
    ∃ o ∈ [WaitObs.mk false [0], WaitObs.mk false [2]], o.exited = false ∧
      ∀ i, i < [2].length →
        ∀ s, s ≤ [2].getD i 0 → s ≤ o.completed.getD i 0 :=
  (c2_engine_wait 3 9 [2] [WaitObs.mk false [0], WaitObs.mk false [2]] (by decide)).1
    (by decide)

/-- C3: `Engine::new` never selects a dedicated transfer family: even when a
transfer-only, compute- and graphics-excluding family exists (here family 1),
`transfer_family.take()` discards the found candidate, no transfer worker pair
is spawned on it, and the transfer op channel aliases the compute op channel. -/
theorem c3_transfer_family_discarded :
    transferFamilyCandidate [⟨true, true, true⟩, ⟨false, false, true⟩] = some 1 ∧
    engineNewTransferFamily [⟨true, true, true⟩, ⟨false, false, true⟩] = none ∧
    transferAliasesCompute [⟨true, true, true⟩, ⟨false, false, true⟩] = true := by
  decide

/-- C4: spec-id lookup does bind index `n < spec_consts.len()` to
`spec_consts[n]` and index `spec_consts.len()` to the `threads` value, but the
64-bit patch (`[LiteralInt32(a), LiteralInt32(b)]`) panics on every 8-byte
value: it copies `bytes[..8]` into a 4-byte word (`copy_from_slice` length
mismatch) and indexes `bytes[9..]` out of range, instead of writing the low
and high four bytes. -/
theorem c4_spec_constant_64bit_patch_aborts :
    specIdValue [[1, 2, 3, 4, 5, 6, 7, 8]] (u32LeBytes 64) 0 = some [1, 2, 3, 4, 5, 6, 7, 8] ∧
    specIdValue [[1, 2, 3, 4, 5, 6, 7, 8]] (u32LeBytes 64) 1 = some (u32LeBytes 64) ∧
    patchSpecOperands [1, 2, 3, 4, 5, 6, 7, 8] [[0, 0, 0, 0], [0, 0, 0, 0]] = none := by
  decide

/-- C5: `freeze_spec_constants` leaves `OpSpecConstantTrue` and
`OpSpecConstantFalse` in the module: their conversion to
`OpConstantTrue/False` is dead code guarded by
`if let Op::SpecConstant = inst.class.opcode`, so spec opcodes survive the
pass even though `SpecId` decorations are removed. -/
theorem c5_freeze_keeps_spec_constant_bools :
    freezeTypesGlobals [.specConstantTrue, .specConstantFalse] =
      .ok [.specConstantTrue, .specConstantFalse] ∧
    isSpecInst .specConstantTrue = true ∧
    isSpecInst .specConstantFalse = true ∧
    freezeAnnotations [.decorateSpecId 5 0, .otherAnnot] = [.otherAnnot] := by
  decide

/-- C6: when every device chunk slot holds an upgradeable chunk without room
(so no slot yields a block and no fresh allocation is attempted),
`alloc_device`'s loop falls through to `Err(OomError::OutOfHostMemory)` —
the host kind, not the device kind.  `alloc_host` correctly fails with the
host kind on the same shape. -/
theorem c6_alloc_device_oom_kind :
    (∀ s ∈ [ChunkSlot.alive false], slotExhausted s = true) ∧
    allocDevice [ChunkSlot.alive false] = .error .outOfHostMemory ∧
    allocHost [ChunkSlot.alive false] = .error .outOfHostMemory := by
  decide

/-- C9: `Engine::new` stores `Features::empty()` into the `DeviceInfo`
regardless of which shader features the physical device supports and which
were negotiated; consequently `KernelBuilder::build`'s containment check
fails for every kernel requiring a nonempty feature set. -/
theorem c9_device_info_features_empty (supported optimal required : Features)
    (hreq : required ≠ Features.empty) :
    engineNewInfoFeatures supported optimal = Features.empty ∧
    buildFeatureCheckFails (engineNewInfoFeatures supported optimal) required = true := by
  refine ⟨rfl, ?_⟩
  rcases required with ⟨a, b, c, d, e⟩
  cases a <;> cases b <;> cases c <;> cases d <;> cases e <;>
    simp_all [engineNewInfoFeatures, buildFeatureCheckFails, Features.containsF, Features.empty]

/-- Witness for C9 at a device supporting everything, negotiated to
`{int8, int64, float64}`, and a kernel requiring `shader_float64`. -/
theorem c9_device_info_features_empty_witness :
    engineNewInfoFeatures ⟨true, true, true, true, true⟩ ⟨true, false, true, false, true⟩ =
      Features.empty ∧
    buildFeatureCheckFails
      (engineNewInfoFeatures ⟨true, true, true, true, true⟩ ⟨true, false, true, false, true⟩)
      ⟨false, false, false, false, true⟩ = true :=
  c9_device_info_features_empty ⟨true, true, true, true, true⟩ ⟨true, false, true, false, true⟩
    ⟨false, false, false, false, true⟩ (by decide)

/-- C10: `Engine::alloc` and `Engine::upload` return `Ok(None)` and enqueue
no `Op` for a zero requested length, and return an error for any length
above `u32::MAX` bytes. -/
theorem c10_alloc_upload_boundary (len0 lenBig : Nat) (hostOk writeOk deviceOk : Bool)
    (h0 : len0 = 0) (hbig : U32_MAX < lenBig) :
    engineAlloc len0 deviceOk = ⟨.ok none, 0⟩ ∧
    engineUpload len0 hostOk writeOk deviceOk = ⟨.ok none, 0⟩ ∧
    (engineAlloc lenBig deviceOk).result = .error () ∧
    (engineUpload lenBig hostOk writeOk deviceOk).result = .error () := by
  subst h0
  have hne : lenBig ≠ 0 := by
    have : 0 < U32_MAX := by decide
    omega
  refine ⟨by simp [engineAlloc], by simp [engineUpload], ?_, ?_⟩ <;>
    simp [engineAlloc, engineUpload, hne, hbig]

/-- The code's `items / threads + u32::from(items % threads != 0)` equals
ceiling division. -/
theorem ceil_div_formula (a t : Nat) (ht : 0 < t) :
    a / t + (if a % t ≠ 0 then 1 else 0) = (a + t - 1) / t := by
  have hdm := Nat.div_add_mod a t
  have hmlt : a % t < t := Nat.mod_lt _ ht
  by_cases hr : a % t = 0
  · have h2 : a + t - 1 = (t - 1) + t * (a / t) := by omega
    rw [h2, Nat.add_mul_div_left _ _ ht, Nat.div_eq_of_lt (show t - 1 < t by omega)]
    simp [hr]
  · have hmul : t * (a / t + 1) = t * (a / t) + t := by ring
    have h2 : a + t - 1 = (a % t - 1) + t * (a / t + 1) := by omega
    rw [h2, Nat.add_mul_div_left _ _ ht,
      Nat.div_eq_of_lt (show a % t - 1 < t by omega)]
    simp [hr]

/-- The `items` fold in `Kernel::dispatch` computes the minimum of the item
slices' lengths (and of any initial accumulator value). -/
theorem itemsOf_fold_spec :
    ∀ (l : List (Nat × Bool)) (acc : Option Nat) (items : Nat),
      l.foldl
        (fun acc s =>
          if s.2 then
            some (match acc with
              | some i => min i s.1
              | none => s.1)
          else acc)
        acc = some items →
      ((∀ s ∈ l, s.2 = true → items ≤ s.1) ∧
        (acc = some items ∨ ∃ s ∈ l, s.2 = true ∧ s.1 = items)) ∧
      (∀ a, acc = some a → items ≤ a)
  | [], acc, items => by
    intro h
    simp only [List.foldl_nil] at h
    exact ⟨⟨by simp, Or.inl h⟩, fun a ha => by rw [ha] at h; injection h with h; omega⟩
  | s :: rest, acc, items => by
    intro h
    simp only [List.foldl_cons] at h
    by_cases hs : s.2 = true
    · rw [if_pos hs] at h
      cases acc with
      | none =>
        have ih := itemsOf_fold_spec rest (some s.1) items h
        refine ⟨⟨?_, ?_⟩, ?_⟩
        · intro x hx hxi
          rcases List.mem_cons.mp hx with rfl | hx
          · exact ih.2 _ rfl
          · exact ih.1.1 x hx hxi
        · rcases ih.1.2 with heq | ⟨x, hx, hxi, hxl⟩
          · exact Or.inr ⟨s, List.mem_cons_self _ _, hs, Option.some.inj heq⟩
          · exact Or.inr ⟨x, List.mem_cons_of_mem _ hx, hxi, hxl⟩
        · intro a ha
          cases ha
      | some a =>
        have ih := itemsOf_fold_spec rest (some (min a s.1)) items h
        have hmin : items ≤ min a s.1 := ih.2 _ rfl
        refine ⟨⟨?_, ?_⟩, ?_⟩
        · intro x hx hxi
          rcases List.mem_cons.mp hx with rfl | hx
          · omega
          · exact ih.1.1 x hx hxi
        · rcases ih.1.2 with heq | ⟨x, hx, hxi, hxl⟩
          · have : items = min a s.1 := by injection heq with heq; omega
            rcases min_choice a s.1 with hc | hc
            · exact Or.inl (by rw [this, hc])
            · exact Or.inr ⟨s, List.mem_cons_self _ _, hs, by omega⟩
          · exact Or.inr ⟨x, List.mem_cons_of_mem _ hx, hxi, hxl⟩
        · intro a2 ha2
          injection ha2 with ha2
          omega
    · rw [if_neg hs] at h
      have ih := itemsOf_fold_spec rest acc items h
      refine ⟨⟨?_, ?_⟩, ih.2⟩
      · intro x hx hxi
        rcases List.mem_cons.mp hx with rfl | hx
        · exact absurd hxi hs
        · exact ih.1.1 x hx hxi
      · rcases ih.1.2 with heq | ⟨x, hx, hxi, hxl⟩
        · exact Or.inl heq
        · exact Or.inr ⟨x, List.mem_cons_of_mem _ hx, hxi, hxl⟩

/-- C7 counterexample: with neither `with_groups` nor any item-bound slice,
`Kernel::dispatch` does not return an error — it hits
`unreachable!("groups not provided!")`. -/
theorem c7_groups_counterexample :
    computeGroups none [] 1 10 = .diverges ∧ computeGroups none [] 1 10 ≠ .err := by
  decide

/-- C7 (amended): the group count is determined as: if `with_groups(n)` was
set, `n` is used (erroring when `n` exceeds `max_groups`); else if the kernel
is item-bound, the count is `ceil(min item-slice length / threads)` capped at
`max_groups`; else dispatch panics with `unreachable!` rather than returning
an error. -/
theorem c7_groups_determination (groupsOpt : Option Nat) (slices : List (Nat × Bool))
    (threads maxGroups : Nat) (ht : 0 < threads) :
    (∀ n, groupsOpt = some n →
      computeGroups groupsOpt slices threads maxGroups =
        if n > maxGroups then .err else .ok n) ∧
    (groupsOpt = none → ∀ items, itemsOf slices = some items →
      ((∀ s ∈ slices, s.2 = true → items ≤ s.1) ∧
        (∃ s ∈ slices, s.2 = true ∧ s.1 = items)) ∧
      computeGroups groupsOpt slices threads maxGroups =
        .ok (min ((items + threads - 1) / threads) maxGroups)) ∧
    (groupsOpt = none → itemsOf slices = none →
      computeGroups groupsOpt slices threads maxGroups = .diverges) := by
  refine ⟨?_, ?_, ?_⟩
  · rintro n rfl
    rfl
  · rintro rfl items hitems
    have hspec := itemsOf_fold_spec slices none items hitems
    refine ⟨⟨hspec.1.1, ?_⟩, ?_⟩
    · rcases hspec.1.2 with heq | hex
      · cases heq
      · exact hex
    · simp only [computeGroups, itemsOf] at hitems ⊢
      rw [hitems, ← ceil_div_formula items threads ht]
  · rintro rfl hitems
    simp only [computeGroups, itemsOf] at hitems ⊢
    rw [hitems]

/-- Witness for C7 at an item kernel with item slices of lengths 5 and 3,
threads 2, max groups 10: the dispatched group count is `ceil(3/2) = 2`. -/
theorem c7_groups_determination_witness :
    (∀ n, (none : Option Nat) = some n →
      computeGroups none [(5, true), (3, true), (7, false)] 2 10 =
        if n > 10 then .err else .ok n) ∧
    ((none : Option Nat) = none → ∀ items,
      itemsOf [(5, true), (3, true), (7, false)] = some items →
      ((∀ s ∈ [(5, true), (3, true), (7, false)], s.2 = true → items ≤ s.1) ∧
        (∃ s ∈ [(5, true), (3, true), (7, false)], s.2 = true ∧ s.1 = items)) ∧
      computeGroups none [(5, true), (3, true), (7, false)] 2 10 =
        .ok (min ((items + 2 - 1) / 2) 10)) ∧
    ((none : Option Nat) = none →
      itemsOf [(5, true), (3, true), (7, false)] = none →
      computeGroups none [(5, true), (3, true), (7, false)] 2 10 = .diverges) :=
  c7_groups_determination none [(5, true), (3, true), (7, false)] 2 10 (by decide)

/-- Witness for C10 at lengths 0 and `2^32`. -/
theorem c10_alloc_upload_boundary_witness :
    engineAlloc 0 true = ⟨.ok none, 0⟩ ∧
    engineUpload 0 true true true = ⟨.ok none, 0⟩ ∧
    (engineAlloc 4294967296 true).result = .error () ∧
    (engineUpload 4294967296 true true true).result = .error () :=
  c10_alloc_upload_boundary 0 4294967296 true true true rfl (by decide)

end Krnl
